import Mathlib

/-!
Shallow embedding of the `butterfly` use-case-diagram tool.

The embedding covers `src/tool/src/use_case_diagram/mod.rs` (the
`UseCaseDiagram` aggregate) and
`src/tool/src/use_case_diagram/code_generation/purescript.rs` (the
PureScript code generator).

Modelling choices:
- `HashMap` is modelled as an association `List` whose order stands for the
  map's (unspecified) iteration order; `HashSet` as a duplicate-free `List`.
- A Rust panic (the `unwrap()` in the generator, which fires when an
  association refers to a missing actor) is modelled as `Option.none`.
- The `io::Write` sink is modelled by returning the full text written on
  success; an I/O failure of the sink is outside the pure model.
-/

namespace Butterfly

/-- An actor identifier, `ActorId(pub usize)` in the source. -/
structure ActorId where
  val : Nat
deriving DecidableEq, Repr

/-- A use case identifier, `UseCaseId(pub usize)` in the source. -/
structure UseCaseId where
  val : Nat
deriving DecidableEq, Repr

/-- An actor of zero or more use cases: `Actor { name: Rc<str> }`. -/
structure Actor where
  name : String
deriving DecidableEq, Repr

/-- A use case: `UseCase { title: Rc<str> }`. -/
structure UseCase where
  title : String
deriving DecidableEq, Repr

/-- An error that describes an invalid association. -/
inductive AssociationError where
  | NonexistentActor (actor_id : ActorId)
  | NonexistentUseCase (use_case_id : UseCaseId)
deriving DecidableEq, Repr

/-- Model of `HashMap::contains_key` on the association-list model. -/
def contains_key {α β : Type} [DecidableEq α] (m : List (α × β)) (k : α) : Bool :=
  m.any fun p => decide (p.1 = k)

/-- Model of `HashMap::get` on the association-list model. -/
def map_lookup {α β : Type} [DecidableEq α] (k : α) : List (α × β) → Option β
  | [] => none
  | p :: m => if p.1 = k then some p.2 else map_lookup k m

/-- Model of `HashMap::insert`: replace the value at an existing key,
otherwise add the new entry (appended, as one fixed iteration order). -/
def map_insert {α β : Type} [DecidableEq α] (m : List (α × β)) (k : α) (v : β) :
    List (α × β) :=
  if contains_key m k then m.map fun p => if p.1 = k then (k, v) else p
  else m ++ [(k, v)]

/-- Model of `HashSet::contains`. -/
def set_contains {α : Type} [DecidableEq α] (s : List α) (x : α) : Bool :=
  s.any fun y => decide (y = x)

/-- Model of `HashSet::insert`: add the element unless already present. -/
def set_insert {α : Type} [DecidableEq α] (s : List α) (x : α) : List α :=
  if set_contains s x then s else s ++ [x]

/-- The `UseCaseDiagram` struct: id counters, the actor and use-case maps,
and the association set. List order models iteration order. -/
structure UseCaseDiagram where
  next_actor_id : Nat
  next_use_case_id : Nat
  actors : List (ActorId × Actor)
  use_cases : List (UseCaseId × UseCase)
  associations : List (ActorId × UseCaseId)
deriving DecidableEq, Repr

/-- Model of `UseCaseDiagram::new`: empty diagram, counters at zero. -/
def UseCaseDiagram.new : UseCaseDiagram :=
  { next_actor_id := 0
    next_use_case_id := 0
    actors := []
    use_cases := []
    associations := [] }

/-- Model of `UseCaseDiagram::actor`. -/
def UseCaseDiagram.actor (d : UseCaseDiagram) (actor_id : ActorId) : Option Actor :=
  map_lookup actor_id d.actors

/-- Model of `UseCaseDiagram::use_case`. -/
def UseCaseDiagram.use_case (d : UseCaseDiagram) (use_case_id : UseCaseId) :
    Option UseCase :=
  map_lookup use_case_id d.use_cases

/-- Model of the `assert_invariants` consistency check: every association
refers to an existing actor and an existing use case. The Rust code asserts
this (a panic on violation) after every mutation; the preservation theorems
below show the assertion can never fire. -/
def UseCaseDiagram.invariants_hold (d : UseCaseDiagram) : Bool :=
  d.associations.all fun p =>
    contains_key d.actors p.1 && contains_key d.use_cases p.2

/-- Model of `UseCaseDiagram::insert_actor`: take the next actor id (which
`next_actor_id` post-increments), insert the actor under it. -/
def UseCaseDiagram.insert_actor (d : UseCaseDiagram) (actor : Actor) :
    ActorId × UseCaseDiagram :=
  let actor_id : ActorId := ⟨d.next_actor_id⟩
  (actor_id,
   { d with
     next_actor_id := d.next_actor_id + 1
     actors := map_insert d.actors actor_id actor })

/-- Model of `UseCaseDiagram::insert_use_case`. -/
def UseCaseDiagram.insert_use_case (d : UseCaseDiagram) (use_case : UseCase) :
    UseCaseId × UseCaseDiagram :=
  let use_case_id : UseCaseId := ⟨d.next_use_case_id⟩
  (use_case_id,
   { d with
     next_use_case_id := d.next_use_case_id + 1
     use_cases := map_insert d.use_cases use_case_id use_case })

/-- Model of `UseCaseDiagram::insert_association`: reject a missing actor
first, then a missing use case, otherwise add the pair to the set. The
returned diagram is the post-call state (unchanged on error). -/
def UseCaseDiagram.insert_association (d : UseCaseDiagram) (actor_id : ActorId)
    (use_case_id : UseCaseId) : Except AssociationError Unit × UseCaseDiagram :=
  if !contains_key d.actors actor_id then
    (Except.error (AssociationError.NonexistentActor actor_id), d)
  else if !contains_key d.use_cases use_case_id then
    (Except.error (AssociationError.NonexistentUseCase use_case_id), d)
  else
    (Except.ok (),
     { d with associations := set_insert d.associations (actor_id, use_case_id) })

/-- One call of the public mutation API. -/
inductive Mutation where
  | addActor (actor : Actor)
  | addUseCase (use_case : UseCase)
  | addAssociation (actor_id : ActorId) (use_case_id : UseCaseId)
deriving DecidableEq, Repr

/-- Apply one mutation, keeping only the resulting state. -/
def applyMutation (d : UseCaseDiagram) : Mutation → UseCaseDiagram
  | Mutation.addActor a => (d.insert_actor a).2
  | Mutation.addUseCase u => (d.insert_use_case u).2
  | Mutation.addAssociation a u => (d.insert_association a u).2

/-- Run a sequence of mutation calls from a starting diagram. -/
def runMutations (d : UseCaseDiagram) (ms : List Mutation) : UseCaseDiagram :=
  ms.foldl applyMutation d

/-- Number of `insert_actor` calls in a mutation sequence. -/
def count_add_actor (ms : List Mutation) : Nat :=
  ms.countP fun m =>
    match m with
    | Mutation.addActor _ => true
    | _ => false

/-- Number of `insert_use_case` calls in a mutation sequence. -/
def count_add_use_case (ms : List Mutation) : Nat :=
  ms.countP fun m =>
    match m with
    | Mutation.addUseCase _ => true
    | _ => false

/-- The ActorIds returned by the `insert_actor` calls while running a
mutation sequence, in call order. -/
def actor_ids_returned (d : UseCaseDiagram) : List Mutation → List ActorId
  | [] => []
  | Mutation.addActor a :: ms =>
    (d.insert_actor a).1 :: actor_ids_returned (d.insert_actor a).2 ms
  | m :: ms => actor_ids_returned (applyMutation d m) ms

/-- The UseCaseIds returned by the `insert_use_case` calls while running a
mutation sequence, in call order. -/
def use_case_ids_returned (d : UseCaseDiagram) : List Mutation → List UseCaseId
  | [] => []
  | Mutation.addUseCase u :: ms =>
    (d.insert_use_case u).1 :: use_case_ids_returned (d.insert_use_case u).2 ms
  | m :: ms => use_case_ids_returned (applyMutation d m) ms

/-- Count of the `insert_association` calls that succeed and add a pair not
already present: the spec's successful-inserts-minus-duplicates measure. -/
def successful_new_assoc_count (d : UseCaseDiagram) : List Mutation → Nat
  | [] => 0
  | Mutation.addAssociation a u :: ms =>
    (if contains_key d.actors a && contains_key d.use_cases u &&
        !set_contains d.associations (a, u) then 1 else 0) +
    successful_new_assoc_count (d.insert_association a u).2 ms
  | m :: ms => successful_new_assoc_count (applyMutation d m) ms

/-- Representation invariant: every key already in a mapping is below the
corresponding counter, so a freshly assigned identifier is new. -/
def keys_bounded (d : UseCaseDiagram) : Prop :=
  (∀ p ∈ d.actors, p.1.val < d.next_actor_id) ∧
  (∀ p ∈ d.use_cases, p.1.val < d.next_use_case_id)

/-! The PureScript code generator of `code_generation/purescript.rs`. -/

/-- Model of Rust's `char::escape_debug` as used by the `{:?}` formatting of
a string: escape tab, newline, carriage return, backslash and double quote;
render other control characters with a unicode escape; keep the rest. -/
def escape_debug_char (c : Char) : String :=
  if c = '\t' then "\\t"
  else if c = '\n' then "\\n"
  else if c = '\x0d' then "\\r"
  else if c = '\\' then "\\\\"
  else if c = '\"' then "\\\""
  else if c.toNat < 32 || c.toNat = 127 then
    "\\u\x7b" ++ (Nat.toDigits 16 c.toNat).asString ++ "\x7d"
  else String.singleton c

/-- Model of Rust's `{:?}` formatting of an `Rc<str>`: the characters
escaped, between double quotes. -/
def rust_debug (s : String) : String :=
  "\"" ++ String.join (s.toList.map escape_debug_char) ++ "\""

/-- Model of the generator's `for (i, x) in iter.enumerate()` write pattern:
the first element is preceded by a single space, every later element by the
given separator. -/
def sep_list (sep : String) : List String → String
  | [] => ""
  | x :: xs => " " ++ x ++ String.join (xs.map fun y => sep ++ y)

/-- Model of consuming an iterator whose `map` closure can panic: stop with
`none` at the first failing element, otherwise collect all results. -/
def option_map_list {α β : Type} (f : α → Option β) : List α → Option (List β)
  | [] => some []
  | x :: xs =>
    match f x with
    | none => none
    | some y => (option_map_list f xs).map fun ys => y :: ys

/-- Model of the `actors` iterator bound inside the generator's button loop:
`diagram.associations().filter(second == use_case_id).map(actor(first).unwrap())`.
The `unwrap` panic is the `none` case. -/
def button_actors (d : UseCaseDiagram) (use_case_id : UseCaseId) :
    Option (List Actor) :=
  option_map_list (fun p => d.actor p.1)
    (d.associations.filter fun p => decide (p.2 = use_case_id))

/-- The names of the actors collected by `button_actors`, in collection
order; these are the strings the generator prints inside `Set.fromFoldable`. -/
def button_actor_names (d : UseCaseDiagram) (use_case_id : UseCaseId) :
    Option (List String) :=
  (button_actors d use_case_id).map fun l => l.map Actor.name

/-- Model of the writes the generator's button loop performs for one use
case: the `Button` head with the debug-formatted title, the
`Set.fromFoldable` block over the collected actor names, and the
`actions.<title>` field access. -/
def button_text (d : UseCaseDiagram) (p : UseCaseId × UseCase) : Option String :=
  (button_actor_names d p.1).map fun names =>
    "Button " ++ rust_debug p.2.title ++ "\n" ++
    "             (Set.fromFoldable\n" ++
    "                [" ++
    sep_list "\n                , " (names.map fun n => "Actor " ++ rust_debug n) ++
    " ])\n" ++
    "             actions." ++ rust_debug p.2.title

/-- Model of the writes producing the portal's type signature: the name, the
record of every use-case title at type `f Unit`, and the `Portal f` result. -/
def signature_text (d : UseCaseDiagram) (name : String) : String :=
  name ++ "\n" ++
  "  :: ∀ f\n" ++
  "   . \x7b" ++
  sep_list "\n     , "
    (d.use_cases.map fun p => rust_debug p.2.title ++ " :: f Unit") ++
  " \x7d\n" ++
  "  -> Portal f\n"

/-- Model of `generate_portal_definition`: the full text written on success,
`none` when the `unwrap` in the button loop panics. -/
def generate_portal_definition (d : UseCaseDiagram) (name : String) :
    Option String :=
  (option_map_list (button_text d) d.use_cases).map fun bodies =>
    signature_text d name ++
    name ++ " actions =\n" ++
    "  Portal <<< List.fromFoldable $\n" ++
    "    [" ++ sep_list "\n    , " bodies ++ " ]\n"

/-- Model of `generate_module_header`. -/
def generate_module_header (name : String) : String :=
  "module " ++ name ++ " where\n"

/-- Model of `generate_imports`: the fixed block of import lines. -/
def generate_imports : String :=
  String.join
    ["import Prelude\n",
     "import Data.List as List\n",
     "import Data.Set as Set\n",
     "import Butterfly.Actor (Actor (..))\n",
     "import Butterfly.Portal (Button (..), Portal (..))\n"]

/-- One full generator run: header, imports, portal definition, in the order
the driver calls them. -/
def generate_all (d : UseCaseDiagram) (module_name name : String) :
    Option String :=
  (generate_portal_definition d name).map fun portal =>
    generate_module_header module_name ++ generate_imports ++ portal

/-! Spec-side description of the generated portal, for the refinement
claims. These definitions follow the wording of the spec (§4.2 and §6), not
the source, and are compared with the source-derived generator above. -/

/-- A Button entry of the Portal as the spec describes it: a use-case title,
the collection of permitted actor names, and the name of the callback field
selected from the input actions record. -/
structure Button where
  title : String
  permitted_actors : List String
  action_field : String
deriving DecidableEq, Repr

/-- The Portal contents as worded by the spec: one Button per use case, in
the iteration order of `use_cases()`, each pairing the use case's title, the
names of the actors bound to it by associations (resolved through the actor
mapping), and the action field selected by that same title. -/
def spec_portal_buttons (d : UseCaseDiagram) : List Button :=
  d.use_cases.map fun p =>
    { title := p.2.title
      permitted_actors :=
        (d.associations.filter fun q => decide (q.2 = p.1)).filterMap fun q =>
          (d.actor q.1).map Actor.name
      action_field := p.2.title }

/-- Rendering of one spec-side Button into the §6 output format. -/
def render_button (b : Button) : String :=
  "Button " ++ rust_debug b.title ++ "\n" ++
  "             (Set.fromFoldable\n" ++
  "                [" ++
  sep_list "\n                , "
    (b.permitted_actors.map fun n => "Actor " ++ rust_debug n) ++
  " ])\n" ++
  "             actions." ++ rust_debug b.action_field

/-- Rendering of the full portal definition from the spec-side Buttons. -/
def render_portal (d : UseCaseDiagram) (name : String) (buttons : List Button) :
    String :=
  signature_text d name ++
  name ++ " actions =\n" ++
  "  Portal <<< List.fromFoldable $\n" ++
  "    [" ++ sep_list "\n    , " (buttons.map render_button) ++ " ]\n"

/-- A small concrete diagram used to instantiate the theorems: two actors,
one use case, both actors associated with it. -/
def example_diagram : UseCaseDiagram :=
  { next_actor_id := 2
    next_use_case_id := 1
    actors := [(⟨0⟩, ⟨"Administrator"⟩), (⟨1⟩, ⟨"Subscriber"⟩)]
    use_cases := [(⟨0⟩, ⟨"Ban subscriber"⟩)]
    associations := [(⟨0⟩, ⟨0⟩), (⟨1⟩, ⟨0⟩)] }

/-- A small concrete mutation sequence used to instantiate the theorems. -/
def example_mutations : List Mutation :=
  [Mutation.addActor ⟨"Administrator"⟩,
   Mutation.addUseCase ⟨"Ban subscriber"⟩,
   Mutation.addAssociation ⟨0⟩ ⟨0⟩]

/-! Basic lemmas about the map and set models. -/

theorem contains_key_iff {α β : Type} [DecidableEq α] (m : List (α × β)) (k : α) :
    contains_key m k = true ↔ ∃ v, (k, v) ∈ m := by
  simp only [contains_key, List.any_eq_true, decide_eq_true_eq]
  constructor
  · rintro ⟨⟨k', v⟩, hm, rfl⟩
    exact ⟨v, hm⟩
  · rintro ⟨v, hm⟩
    exact ⟨(k, v), hm, rfl⟩

theorem map_lookup_isSome {α β : Type} [DecidableEq α] (m : List (α × β)) (k : α) :
    (map_lookup k m).isSome = contains_key m k := by
  induction m with
  | nil => rfl
  | cons p m ih =>
    by_cases h : p.1 = k
    · simp [map_lookup, contains_key, h]
    · simp only [map_lookup, contains_key, List.any_cons, h, if_false,
        decide_eq_true_eq, ih, Bool.false_or]
      simp [contains_key]

theorem map_lookup_mem {α β : Type} [DecidableEq α] {m : List (α × β)} {k : α}
    {v : β} (h : map_lookup k m = some v) : (k, v) ∈ m := by
  induction m with
  | nil => simp [map_lookup] at h
  | cons p m ih =>
    by_cases hk : p.1 = k
    · simp only [map_lookup, hk, if_true, Option.some.injEq] at h
      subst h
      have hp : (k, p.2) = p := by rw [← hk]
      rw [hp]
      exact List.mem_cons_self _ _
    · simp only [map_lookup, hk, if_false] at h
      exact List.mem_cons_of_mem _ (ih h)

theorem contains_key_map_insert {α β : Type} [DecidableEq α] {m : List (α × β)}
    {k : α} (k0 : α) (v : β) (h : contains_key m k = true) :
    contains_key (map_insert m k0 v) k = true := by
  unfold map_insert
  split
  · simp only [contains_key, List.any_map, List.any_eq_true, Function.comp,
      decide_eq_true_eq] at h ⊢
    obtain ⟨p, hp, hk⟩ := h
    refine ⟨p, hp, ?_⟩
    split
    · simp_all
    · exact hk
  · simp only [contains_key, List.any_append, Bool.or_eq_true]
    exact Or.inl h

theorem map_insert_fresh {α β : Type} [DecidableEq α] {m : List (α × β)} {k : α}
    (v : β) (h : contains_key m k = false) : map_insert m k v = m ++ [(k, v)] := by
  unfold map_insert
  simp [h]

theorem set_insert_mem {α : Type} [DecidableEq α] (s : List α) (x y : α)
    (h : y ∈ set_insert s x) : y ∈ s ∨ y = x := by
  unfold set_insert at h
  split at h
  · exact Or.inl h
  · rcases List.mem_append.mp h with h' | h'
    · exact Or.inl h'
    · exact Or.inr (List.mem_singleton.mp h')

theorem mem_set_insert_self {α : Type} [DecidableEq α] (s : List α) (x : α) :
    x ∈ set_insert s x := by
  unfold set_insert
  split
  · next h =>
    simp only [set_contains, List.any_eq_true, decide_eq_true_eq] at h
    obtain ⟨y, hy, rfl⟩ := h
    exact hy
  · exact List.mem_append.mpr (Or.inr (List.mem_singleton.mpr rfl))

/-! Frame lemmas for the three mutations. -/

theorem insert_actor_state (d : UseCaseDiagram) (a : Actor) :
    (d.insert_actor a).2 =
      { d with
        next_actor_id := d.next_actor_id + 1
        actors := map_insert d.actors ⟨d.next_actor_id⟩ a } := rfl

theorem insert_actor_ret (d : UseCaseDiagram) (a : Actor) :
    (d.insert_actor a).1 = ⟨d.next_actor_id⟩ := rfl

theorem insert_use_case_state (d : UseCaseDiagram) (u : UseCase) :
    (d.insert_use_case u).2 =
      { d with
        next_use_case_id := d.next_use_case_id + 1
        use_cases := map_insert d.use_cases ⟨d.next_use_case_id⟩ u } := rfl

theorem insert_use_case_ret (d : UseCaseDiagram) (u : UseCase) :
    (d.insert_use_case u).1 = ⟨d.next_use_case_id⟩ := rfl

theorem insert_association_err_actor (d : UseCaseDiagram) (a : ActorId)
    (u : UseCaseId) (h : contains_key d.actors a = false) :
    d.insert_association a u =
      (Except.error (AssociationError.NonexistentActor a), d) := by
  unfold UseCaseDiagram.insert_association
  simp [h]

theorem insert_association_err_use_case (d : UseCaseDiagram) (a : ActorId)
    (u : UseCaseId) (ha : contains_key d.actors a = true)
    (hu : contains_key d.use_cases u = false) :
    d.insert_association a u =
      (Except.error (AssociationError.NonexistentUseCase u), d) := by
  unfold UseCaseDiagram.insert_association
  simp [ha, hu]

theorem insert_association_ok (d : UseCaseDiagram) (a : ActorId) (u : UseCaseId)
    (ha : contains_key d.actors a = true)
    (hu : contains_key d.use_cases u = true) :
    d.insert_association a u =
      (Except.ok (),
       { d with associations := set_insert d.associations (a, u) }) := by
  unfold UseCaseDiagram.insert_association
  simp [ha, hu]

theorem insert_association_frame (d : UseCaseDiagram) (a : ActorId)
    (u : UseCaseId) :
    (d.insert_association a u).2.actors = d.actors ∧
    (d.insert_association a u).2.use_cases = d.use_cases ∧
    (d.insert_association a u).2.next_actor_id = d.next_actor_id ∧
    (d.insert_association a u).2.next_use_case_id = d.next_use_case_id := by
  unfold UseCaseDiagram.insert_association
  split
  · exact ⟨rfl, rfl, rfl, rfl⟩
  · split
    · exact ⟨rfl, rfl, rfl, rfl⟩
    · exact ⟨rfl, rfl, rfl, rfl⟩

/-! Preservation of the referential-integrity invariant. -/

theorem invariants_insert_actor (d : UseCaseDiagram) (a : Actor)
    (h : d.invariants_hold = true) :
    (d.insert_actor a).2.invariants_hold = true := by
  rw [insert_actor_state]
  simp only [UseCaseDiagram.invariants_hold, List.all_eq_true,
    Bool.and_eq_true] at h ⊢
  intro p hp
  obtain ⟨h1, h2⟩ := h p hp
  exact ⟨contains_key_map_insert _ _ h1, h2⟩

theorem invariants_insert_use_case (d : UseCaseDiagram) (u : UseCase)
    (h : d.invariants_hold = true) :
    (d.insert_use_case u).2.invariants_hold = true := by
  rw [insert_use_case_state]
  simp only [UseCaseDiagram.invariants_hold, List.all_eq_true,
    Bool.and_eq_true] at h ⊢
  intro p hp
  obtain ⟨h1, h2⟩ := h p hp
  exact ⟨h1, contains_key_map_insert _ _ h2⟩

theorem invariants_insert_association (d : UseCaseDiagram) (a : ActorId)
    (u : UseCaseId) (h : d.invariants_hold = true) :
    (d.insert_association a u).2.invariants_hold = true := by
  unfold UseCaseDiagram.insert_association
  split
  · exact h
  · split
    · exact h
    · next ha hu =>
      simp only [Bool.not_eq_true', Bool.not_eq_false] at ha hu
      simp only [UseCaseDiagram.invariants_hold, List.all_eq_true,
        Bool.and_eq_true] at h ⊢
      intro p hp
      rcases set_insert_mem _ _ _ hp with hp' | hp'
      · exact h p hp'
      · subst hp'
        exact ⟨ha, hu⟩

theorem invariants_applyMutation (d : UseCaseDiagram) (m : Mutation)
    (h : d.invariants_hold = true) :
    (applyMutation d m).invariants_hold = true := by
  cases m with
  | addActor a => exact invariants_insert_actor d a h
  | addUseCase u => exact invariants_insert_use_case d u h
  | addAssociation a u => exact invariants_insert_association d a u h

theorem invariants_runMutations (d : UseCaseDiagram) (ms : List Mutation)
    (h : d.invariants_hold = true) :
    (runMutations d ms).invariants_hold = true := by
  induction ms generalizing d with
  | nil => exact h
  | cons m ms ih => exact ih _ (invariants_applyMutation d m h)

theorem invariants_new : UseCaseDiagram.new.invariants_hold = true := rfl

/-! Freshness of assigned identifiers and entry counts. -/

theorem fresh_actor_key (d : UseCaseDiagram) (h : keys_bounded d) :
    contains_key d.actors (⟨d.next_actor_id⟩ : ActorId) = false := by
  by_contra hc
  rw [Bool.not_eq_false] at hc
  obtain ⟨v, hv⟩ := (contains_key_iff _ _).mp hc
  have hb := h.1 _ hv
  simp at hb

theorem fresh_use_case_key (d : UseCaseDiagram) (h : keys_bounded d) :
    contains_key d.use_cases (⟨d.next_use_case_id⟩ : UseCaseId) = false := by
  by_contra hc
  rw [Bool.not_eq_false] at hc
  obtain ⟨v, hv⟩ := (contains_key_iff _ _).mp hc
  have hb := h.2 _ hv
  simp at hb

theorem insert_actor_actors_fresh (d : UseCaseDiagram) (a : Actor)
    (h : keys_bounded d) :
    (d.insert_actor a).2.actors = d.actors ++ [(⟨d.next_actor_id⟩, a)] := by
  rw [insert_actor_state]
  exact map_insert_fresh a (fresh_actor_key d h)

theorem insert_use_case_use_cases_fresh (d : UseCaseDiagram) (u : UseCase)
    (h : keys_bounded d) :
    (d.insert_use_case u).2.use_cases =
      d.use_cases ++ [(⟨d.next_use_case_id⟩, u)] := by
  rw [insert_use_case_state]
  exact map_insert_fresh u (fresh_use_case_key d h)

theorem keys_bounded_insert_actor (d : UseCaseDiagram) (a : Actor)
    (h : keys_bounded d) : keys_bounded (d.insert_actor a).2 := by
  constructor
  · rw [insert_actor_actors_fresh d a h, insert_actor_state]
    intro p hp
    rcases List.mem_append.mp hp with hp' | hp'
    · exact Nat.lt_succ_of_lt (h.1 p hp')
    · rw [List.mem_singleton.mp hp']
      exact Nat.lt_succ_self _
  · rw [insert_actor_state]
    exact h.2

theorem keys_bounded_insert_use_case (d : UseCaseDiagram) (u : UseCase)
    (h : keys_bounded d) : keys_bounded (d.insert_use_case u).2 := by
  constructor
  · rw [insert_use_case_state]
    exact h.1
  · rw [insert_use_case_use_cases_fresh d u h, insert_use_case_state]
    intro p hp
    rcases List.mem_append.mp hp with hp' | hp'
    · exact Nat.lt_succ_of_lt (h.2 p hp')
    · rw [List.mem_singleton.mp hp']
      exact Nat.lt_succ_self _

theorem keys_bounded_insert_association (d : UseCaseDiagram) (a : ActorId)
    (u : UseCaseId) (h : keys_bounded d) :
    keys_bounded (d.insert_association a u).2 := by
  obtain ⟨f1, f2, f3, f4⟩ := insert_association_frame d a u
  constructor
  · rw [f1, f3]
    exact h.1
  · rw [f2, f4]
    exact h.2

theorem keys_bounded_applyMutation (d : UseCaseDiagram) (m : Mutation)
    (h : keys_bounded d) : keys_bounded (applyMutation d m) := by
  cases m with
  | addActor a => exact keys_bounded_insert_actor d a h
  | addUseCase u => exact keys_bounded_insert_use_case d u h
  | addAssociation a u => exact keys_bounded_insert_association d a u h

theorem keys_bounded_new : keys_bounded UseCaseDiagram.new := by
  constructor <;> intro p hp <;> simp [UseCaseDiagram.new] at hp

theorem assoc_length_insert_association (d : UseCaseDiagram) (a : ActorId)
    (u : UseCaseId) :
    (d.insert_association a u).2.associations.length =
      d.associations.length +
      (if contains_key d.actors a && contains_key d.use_cases u &&
          !set_contains d.associations (a, u) then 1 else 0) := by
  by_cases ha : contains_key d.actors a = true
  · by_cases hu : contains_key d.use_cases u = true
    · rw [insert_association_ok d a u ha hu]
      simp only [ha, hu, Bool.true_and]
      unfold set_insert
      by_cases hc : set_contains d.associations (a, u) = true
      · simp [hc]
      · rw [Bool.not_eq_true] at hc
        simp [hc]
    · rw [insert_association_err_use_case d a u ha (by simpa using hu)]
      rw [Bool.not_eq_true] at hu
      simp [hu]
  · rw [insert_association_err_actor d a u (by simpa using ha)]
    rw [Bool.not_eq_true] at ha
    simp [ha]

theorem run_lengths (d : UseCaseDiagram) (ms : List Mutation)
    (h : keys_bounded d) :
    (runMutations d ms).actors.length = d.actors.length + count_add_actor ms ∧
    (runMutations d ms).use_cases.length
      = d.use_cases.length + count_add_use_case ms ∧
    (runMutations d ms).associations.length
      = d.associations.length + successful_new_assoc_count d ms := by
  induction ms generalizing d with
  | nil =>
    simp [runMutations, count_add_actor, count_add_use_case,
      successful_new_assoc_count]
  | cons m ms ih =>
    have hrun : runMutations d (m :: ms) = runMutations (applyMutation d m) ms := rfl
    cases m with
    | addActor a =>
      obtain ⟨l1, l2, l3⟩ := ih (d.insert_actor a).2 (keys_bounded_insert_actor d a h)
      refine ⟨?_, ?_, ?_⟩
      · rw [hrun]
        show (runMutations (d.insert_actor a).2 ms).actors.length = _
        rw [l1, insert_actor_actors_fresh d a h]
        simp [count_add_actor, List.countP_cons]
        omega
      · rw [hrun]
        show (runMutations (d.insert_actor a).2 ms).use_cases.length = _
        rw [l2, insert_actor_state]
        simp [count_add_use_case, List.countP_cons]
      · rw [hrun]
        show (runMutations (d.insert_actor a).2 ms).associations.length = _
        rw [l3]
        rfl
    | addUseCase u =>
      obtain ⟨l1, l2, l3⟩ := ih (d.insert_use_case u).2
        (keys_bounded_insert_use_case d u h)
      refine ⟨?_, ?_, ?_⟩
      · rw [hrun]
        show (runMutations (d.insert_use_case u).2 ms).actors.length = _
        rw [l1, insert_use_case_state]
        simp [count_add_actor, List.countP_cons]
      · rw [hrun]
        show (runMutations (d.insert_use_case u).2 ms).use_cases.length = _
        rw [l2, insert_use_case_use_cases_fresh d u h]
        simp [count_add_use_case, List.countP_cons]
        omega
      · rw [hrun]
        show (runMutations (d.insert_use_case u).2 ms).associations.length = _
        rw [l3]
        rfl
    | addAssociation a u =>
      obtain ⟨l1, l2, l3⟩ := ih (d.insert_association a u).2
        (keys_bounded_insert_association d a u h)
      obtain ⟨f1, f2, f3, f4⟩ := insert_association_frame d a u
      refine ⟨?_, ?_, ?_⟩
      · rw [hrun]
        show (runMutations (d.insert_association a u).2 ms).actors.length = _
        rw [l1, f1]
        simp [count_add_actor, List.countP_cons]
      · rw [hrun]
        show (runMutations (d.insert_association a u).2 ms).use_cases.length = _
        rw [l2, f2]
        simp [count_add_use_case, List.countP_cons]
      · rw [hrun]
        show (runMutations (d.insert_association a u).2 ms).associations.length = _
        rw [l3, assoc_length_insert_association d a u]
        simp only [successful_new_assoc_count]
        omega

/-! Idempotence of set insertion. -/

theorem set_insert_of_mem {α : Type} [DecidableEq α] {s : List α} {x : α}
    (h : x ∈ s) : set_insert s x = s := by
  unfold set_insert
  have hc : set_contains s x = true := by
    simp only [set_contains, List.any_eq_true, decide_eq_true_eq]
    exact ⟨x, h, rfl⟩
  simp [hc]

theorem set_insert_nodup {α : Type} [DecidableEq α] (s : List α) (x : α)
    (h : s.Nodup) : (set_insert s x).Nodup := by
  unfold set_insert
  split
  · exact h
  · next hc =>
    simp only [set_contains, List.any_eq_true, decide_eq_true_eq] at hc
    push_neg at hc
    refine List.nodup_append.mpr ⟨h, List.nodup_singleton x, ?_⟩
    intro y hy hx
    exact hc y hy (List.mem_singleton.mp hx)

theorem countP_eq_one_of_nodup {α : Type} [DecidableEq α] (l : List α) (x : α)
    (hn : l.Nodup) (hm : x ∈ l) :
    (l.countP fun y => decide (y = x)) = 1 := by
  induction l with
  | nil => cases hm
  | cons a l ih =>
    rw [List.countP_cons]
    rcases List.mem_cons.mp hm with rfl | hm'
    · have hx : x ∉ l := (List.nodup_cons.mp hn).1
      have hz : l.countP (fun y => decide (y = x)) = 0 := by
        rw [List.countP_eq_zero]
        intro y hy
        simp only [decide_eq_true_eq]
        rintro rfl
        exact hx hy
      simp [hz]
    · have hc := ih (List.nodup_cons.mp hn).2 hm'
      have hax : ¬a = x := by
        rintro rfl
        exact (List.nodup_cons.mp hn).1 hm'
      simp [hc, hax]

/-! The identifiers returned along a mutation run. -/

theorem actor_ids_returned_eq (d : UseCaseDiagram) (ms : List Mutation) :
    actor_ids_returned d ms =
      (List.range (count_add_actor ms)).map
        fun i => (⟨d.next_actor_id + i⟩ : ActorId) := by
  induction ms generalizing d with
  | nil => simp [actor_ids_returned, count_add_actor]
  | cons m ms ih =>
    cases m with
    | addActor a =>
      have e2 : count_add_actor (Mutation.addActor a :: ms)
          = count_add_actor ms + 1 := by
        simp [count_add_actor, List.countP_cons]
      show (d.insert_actor a).1 :: actor_ids_returned (d.insert_actor a).2 ms = _
      rw [ih, e2, List.range_succ_eq_map, insert_actor_ret]
      simp only [List.map_cons, List.map_map, Nat.add_zero]
      congr 1
      apply List.map_congr_left
      intro i _
      have hn : (d.insert_actor a).2.next_actor_id = d.next_actor_id + 1 := rfl
      simp only [Function.comp, hn, ActorId.mk.injEq]
      omega
    | addUseCase u =>
      have e2 : count_add_actor (Mutation.addUseCase u :: ms)
          = count_add_actor ms := by
        simp [count_add_actor, List.countP_cons]
      show actor_ids_returned (d.insert_use_case u).2 ms = _
      rw [ih, e2]
      rfl
    | addAssociation a u =>
      have e2 : count_add_actor (Mutation.addAssociation a u :: ms)
          = count_add_actor ms := by
        simp [count_add_actor, List.countP_cons]
      show actor_ids_returned (d.insert_association a u).2 ms = _
      rw [ih, e2, (insert_association_frame d a u).2.2.1]

theorem use_case_ids_returned_eq (d : UseCaseDiagram) (ms : List Mutation) :
    use_case_ids_returned d ms =
      (List.range (count_add_use_case ms)).map
        fun i => (⟨d.next_use_case_id + i⟩ : UseCaseId) := by
  induction ms generalizing d with
  | nil => simp [use_case_ids_returned, count_add_use_case]
  | cons m ms ih =>
    cases m with
    | addUseCase u =>
      have e2 : count_add_use_case (Mutation.addUseCase u :: ms)
          = count_add_use_case ms + 1 := by
        simp [count_add_use_case, List.countP_cons]
      show (d.insert_use_case u).1 ::
        use_case_ids_returned (d.insert_use_case u).2 ms = _
      rw [ih, e2, List.range_succ_eq_map, insert_use_case_ret]
      simp only [List.map_cons, List.map_map, Nat.add_zero]
      congr 1
      apply List.map_congr_left
      intro i _
      have hn : (d.insert_use_case u).2.next_use_case_id
          = d.next_use_case_id + 1 := rfl
      simp only [Function.comp, hn, UseCaseId.mk.injEq]
      omega
    | addActor a =>
      have e2 : count_add_use_case (Mutation.addActor a :: ms)
          = count_add_use_case ms := by
        simp [count_add_use_case, List.countP_cons]
      show use_case_ids_returned (d.insert_actor a).2 ms = _
      rw [ih, e2]
      rfl
    | addAssociation a u =>
      have e2 : count_add_use_case (Mutation.addAssociation a u :: ms)
          = count_add_use_case ms := by
        simp [count_add_use_case, List.countP_cons]
      show use_case_ids_returned (d.insert_association a u).2 ms = _
      rw [ih, e2, (insert_association_frame d a u).2.2.2]

/-! Lemmas about the generator's iterator model. -/

theorem option_map_list_congr {α β : Type} (f : α → Option β) (g : α → β)
    (xs : List α) (h : ∀ x ∈ xs, f x = some (g x)) :
    option_map_list f xs = some (xs.map g) := by
  induction xs with
  | nil => rfl
  | cons x xs ih =>
    have hx := h x (List.mem_cons_self x xs)
    have ih' := ih fun y hy => h y (List.mem_cons_of_mem x hy)
    simp [option_map_list, hx, ih']

theorem option_map_list_eq_filterMap {α β : Type} (f : α → Option β)
    (xs : List α) (h : ∀ x ∈ xs, (f x).isSome) :
    option_map_list f xs = some (xs.filterMap f) := by
  induction xs with
  | nil => rfl
  | cons x xs ih =>
    obtain ⟨y, hy⟩ := Option.isSome_iff_exists.mp (h x (List.mem_cons_self x xs))
    have ih' := ih fun z hz => h z (List.mem_cons_of_mem x hz)
    simp [option_map_list, hy, ih', List.filterMap_cons]

theorem actor_lookup_isSome_of_invariants (d : UseCaseDiagram)
    (h : d.invariants_hold = true) {p : ActorId × UseCaseId}
    (hp : p ∈ d.associations) : (d.actor p.1).isSome := by
  simp only [UseCaseDiagram.invariants_hold, List.all_eq_true,
    Bool.and_eq_true] at h
  obtain ⟨h1, _⟩ := h p hp
  rw [UseCaseDiagram.actor, map_lookup_isSome]
  exact h1

theorem button_actors_eq (d : UseCaseDiagram) (u : UseCaseId)
    (h : d.invariants_hold = true) :
    button_actors d u =
      some ((d.associations.filter fun p => decide (p.2 = u)).filterMap
        fun p => d.actor p.1) := by
  unfold button_actors
  apply option_map_list_eq_filterMap
  intro p hp
  exact actor_lookup_isSome_of_invariants d h (List.mem_filter.mp hp).1

theorem button_actor_names_eq (d : UseCaseDiagram) (u : UseCaseId)
    (h : d.invariants_hold = true) :
    button_actor_names d u =
      some ((d.associations.filter fun p => decide (p.2 = u)).filterMap
        fun p => (d.actor p.1).map Actor.name) := by
  unfold button_actor_names
  rw [button_actors_eq d u h]
  simp [List.map_filterMap]

theorem button_text_eq (d : UseCaseDiagram) (p : UseCaseId × UseCase)
    (h : d.invariants_hold = true) :
    button_text d p = some (render_button
      { title := p.2.title
        permitted_actors :=
          (d.associations.filter fun q => decide (q.2 = p.1)).filterMap fun q =>
            (d.actor q.1).map Actor.name
        action_field := p.2.title }) := by
  unfold button_text
  rw [button_actor_names_eq d p.1 h]
  rfl

theorem generate_eq_render (d : UseCaseDiagram) (name : String)
    (h : d.invariants_hold = true) :
    generate_portal_definition d name =
      some (render_portal d name (spec_portal_buttons d)) := by
  unfold generate_portal_definition
  rw [option_map_list_congr (button_text d)
    (fun p => render_button
      { title := p.2.title
        permitted_actors :=
          (d.associations.filter fun q => decide (q.2 = p.1)).filterMap fun q =>
            (d.actor q.1).map Actor.name
        action_field := p.2.title })
    d.use_cases (fun p _ => button_text_eq d p h)]
  unfold render_portal spec_portal_buttons
  rw [List.map_map]
  rfl

/-! The claims. -/

/-- C1: for every diagram satisfying the referential-integrity invariant and
every use case, the permitted-actor collection the generator emits for that
use case's Button (the collected names, made duplicate-free by the generated
`Set.fromFoldable`) consists of exactly the names `a.name` of actors `a`
such that the association `(actor_id a, u)` is in the diagram's association
set: it has no duplicate entries and omits no association whose second
component is `u`. -/
theorem permitted_actors_exact (d : UseCaseDiagram) (u : UseCaseId)
    (h : d.invariants_hold = true) :
    ∃ names : List String,
      button_actor_names d u = some names ∧
      names.dedup.Nodup ∧
      ∀ n, n ∈ names.dedup ↔
        ∃ a_id a, (a_id, u) ∈ d.associations ∧ d.actor a_id = some a ∧
          a.name = n := by
  refine ⟨_, button_actor_names_eq d u h, List.nodup_dedup _, ?_⟩
  intro n
  rw [List.mem_dedup, List.mem_filterMap]
  constructor
  · rintro ⟨p, hp, hn⟩
    obtain ⟨hmem, hq⟩ := List.mem_filter.mp hp
    simp only [decide_eq_true_eq] at hq
    obtain ⟨a, ha, rfl⟩ := Option.map_eq_some'.mp hn
    refine ⟨p.1, a, ?_, ha, rfl⟩
    rw [← hq]
    exact hmem
  · rintro ⟨a_id, a, hmem, ha, rfl⟩
    exact ⟨(a_id, u), List.mem_filter.mpr ⟨hmem, by simp⟩, by simp [ha]⟩

theorem permitted_actors_exact_witness :
    ∃ names : List String,
      button_actor_names example_diagram ⟨0⟩ = some names ∧
      names.dedup.Nodup ∧
      ∀ n, n ∈ names.dedup ↔
        ∃ a_id a, (a_id, (⟨0⟩ : UseCaseId)) ∈ example_diagram.associations ∧
          example_diagram.actor a_id = some a ∧ a.name = n :=
  permitted_actors_exact example_diagram ⟨0⟩ (by decide)

/-- C2: for every diagram satisfying the invariant and every name, the text
emitted by `generate_portal_definition` is the rendering of the spec-side
portal value: one Button entry per use case, in the iteration order of
`use_cases()`, each pairing the use case's title, its permitted-actor
collection, and the field access selecting the callback named by that same
title from the input actions record. -/
theorem portal_structure (d : UseCaseDiagram) (name : String)
    (h : d.invariants_hold = true) :
    generate_portal_definition d name =
      some (render_portal d name (spec_portal_buttons d)) ∧
    (spec_portal_buttons d).length = d.use_cases.length ∧
    ((spec_portal_buttons d).map Button.title
      = d.use_cases.map fun p => p.2.title) ∧
    ∀ b ∈ spec_portal_buttons d, b.action_field = b.title := by
  refine ⟨generate_eq_render d name h, ?_, ?_, ?_⟩
  · simp [spec_portal_buttons]
  · simp only [spec_portal_buttons, List.map_map]
    rfl
  · intro b hb
    simp only [spec_portal_buttons, List.mem_map] at hb
    obtain ⟨p, _, rfl⟩ := hb
    rfl

theorem portal_structure_witness :
    generate_portal_definition example_diagram "portal" =
      some (render_portal example_diagram "portal"
        (spec_portal_buttons example_diagram)) ∧
    (spec_portal_buttons example_diagram).length
      = example_diagram.use_cases.length ∧
    ((spec_portal_buttons example_diagram).map Button.title
      = example_diagram.use_cases.map fun p => p.2.title) ∧
    ∀ b ∈ spec_portal_buttons example_diagram, b.action_field = b.title :=
  portal_structure example_diagram "portal" (by decide)

/-- C3: `insert_association` returns `NonexistentActor` when the actor id is
not a key of the actor mapping (with priority over the use-case check, which
has no condition on the use-case id here), returns `NonexistentUseCase` when
the actor is known but the use case is not, succeeds otherwise, and leaves
the diagram completely unchanged whenever it returns an error. -/
theorem insert_association_cases (d : UseCaseDiagram) (a : ActorId)
    (u : UseCaseId) :
    (contains_key d.actors a = false →
      d.insert_association a u
        = (Except.error (AssociationError.NonexistentActor a), d)) ∧
    (contains_key d.actors a = true → contains_key d.use_cases u = false →
      d.insert_association a u
        = (Except.error (AssociationError.NonexistentUseCase u), d)) ∧
    (∀ e, (d.insert_association a u).1 = Except.error e →
      (d.insert_association a u).2 = d) ∧
    (contains_key d.actors a = true → contains_key d.use_cases u = true →
      (d.insert_association a u).1 = Except.ok ()) := by
  refine ⟨insert_association_err_actor d a u,
    insert_association_err_use_case d a u, ?_, ?_⟩
  · intro e he
    by_cases ha : contains_key d.actors a = true
    · by_cases hu : contains_key d.use_cases u = true
      · rw [insert_association_ok d a u ha hu] at he
        cases he
      · rw [insert_association_err_use_case d a u ha (by simpa using hu)]
    · rw [insert_association_err_actor d a u (by simpa using ha)]
  · intro ha hu
    rw [insert_association_ok d a u ha hu]

theorem insert_association_cases_witness :
    example_diagram.insert_association ⟨5⟩ ⟨7⟩
      = (Except.error (AssociationError.NonexistentActor ⟨5⟩),
         example_diagram) :=
  (insert_association_cases example_diagram ⟨5⟩ ⟨7⟩).1 (by decide)

/-- C4: every diagram reachable from `new` by a sequence of mutation calls
passes the `assert_invariants` check: every ActorId occurring in the
association set is a key of the actor mapping, and every UseCaseId occurring
there is a key of the use-case mapping. -/
theorem reachable_invariants (ms : List Mutation) :
    (runMutations UseCaseDiagram.new ms).invariants_hold = true ∧
    ∀ a u, (a, u) ∈ (runMutations UseCaseDiagram.new ms).associations →
      (∃ x, (a, x) ∈ (runMutations UseCaseDiagram.new ms).actors) ∧
      ∃ y, (u, y) ∈ (runMutations UseCaseDiagram.new ms).use_cases := by
  have h := invariants_runMutations UseCaseDiagram.new ms invariants_new
  refine ⟨h, ?_⟩
  intro a u hm
  simp only [UseCaseDiagram.invariants_hold, List.all_eq_true,
    Bool.and_eq_true] at h
  obtain ⟨h1, h2⟩ := h (a, u) hm
  exact ⟨(contains_key_iff _ _).mp h1, (contains_key_iff _ _).mp h2⟩

theorem reachable_invariants_witness :
    (∃ x, ((⟨0⟩ : ActorId), x)
        ∈ (runMutations UseCaseDiagram.new example_mutations).actors) ∧
    ∃ y, ((⟨0⟩ : UseCaseId), y)
        ∈ (runMutations UseCaseDiagram.new example_mutations).use_cases :=
  (reachable_invariants example_mutations).2 ⟨0⟩ ⟨0⟩ (by decide)

/-- C5: inserting the same valid association twice leaves the diagram in the
same state as inserting it once, and the association set then holds exactly
one instance of the pair. The `Nodup` hypothesis is the `HashSet`
representation invariant of the association set. -/
theorem insert_association_idempotent (d : UseCaseDiagram) (a : ActorId)
    (u : UseCaseId) (ha : contains_key d.actors a = true)
    (hu : contains_key d.use_cases u = true) (hn : d.associations.Nodup) :
    ((d.insert_association a u).2.insert_association a u).2
        = (d.insert_association a u).2 ∧
    ((d.insert_association a u).2.associations.countP
        fun x => decide (x = (a, u))) = 1 := by
  have hok := insert_association_ok d a u ha hu
  have hmem : (a, u) ∈ set_insert d.associations (a, u) :=
    mem_set_insert_self _ _
  constructor
  · rw [hok]
    have ha1 : contains_key ({ d with associations := set_insert d.associations (a, u) } : UseCaseDiagram).actors a = true := ha
    have hu1 : contains_key ({ d with associations := set_insert d.associations (a, u) } : UseCaseDiagram).use_cases u = true := hu
    rw [insert_association_ok _ a u ha1 hu1]
    simp [set_insert_of_mem hmem]
  · rw [hok]
    exact countP_eq_one_of_nodup _ _ (set_insert_nodup _ _ hn) hmem

theorem insert_association_idempotent_witness :
    ((example_diagram.insert_association ⟨0⟩ ⟨0⟩).2.insert_association
        ⟨0⟩ ⟨0⟩).2 = (example_diagram.insert_association ⟨0⟩ ⟨0⟩).2 ∧
    ((example_diagram.insert_association ⟨0⟩ ⟨0⟩).2.associations.countP
        fun x => decide (x = ((⟨0⟩ : ActorId), (⟨0⟩ : UseCaseId)))) = 1 :=
  insert_association_idempotent example_diagram ⟨0⟩ ⟨0⟩ (by decide) (by decide)
    (by decide)

/-- C6: `insert_actor` and `insert_use_case` always succeed (they are total
here), and along any mutation sequence from `new` the n-th `insert_actor`
call returns `ActorId (n-1)` and the n-th `insert_use_case` call returns
`UseCaseId (n-1)`: identifiers are assigned monotonically from 0 in
insertion order and no identifier is returned twice. -/
theorem identifier_assignment (ms : List Mutation) :
    actor_ids_returned UseCaseDiagram.new ms
      = (List.range (count_add_actor ms)).map ActorId.mk ∧
    use_case_ids_returned UseCaseDiagram.new ms
      = (List.range (count_add_use_case ms)).map UseCaseId.mk ∧
    (actor_ids_returned UseCaseDiagram.new ms).Nodup ∧
    (use_case_ids_returned UseCaseDiagram.new ms).Nodup := by
  have e1 : actor_ids_returned UseCaseDiagram.new ms
      = (List.range (count_add_actor ms)).map ActorId.mk := by
    rw [actor_ids_returned_eq]
    apply List.map_congr_left
    intro i _
    simp only [ActorId.mk.injEq, UseCaseDiagram.new]
    omega
  have e2 : use_case_ids_returned UseCaseDiagram.new ms
      = (List.range (count_add_use_case ms)).map UseCaseId.mk := by
    rw [use_case_ids_returned_eq]
    apply List.map_congr_left
    intro i _
    simp only [UseCaseId.mk.injEq, UseCaseDiagram.new]
    omega
  refine ⟨e1, e2, ?_, ?_⟩
  · rw [e1]
    exact (List.nodup_range _).map fun x y hxy => by injection hxy
  · rw [e2]
    exact (List.nodup_range _).map fun x y hxy => by injection hxy

/-- C7: for a diagram satisfying the invariant the generator cannot panic:
the `actor()` lookup resolves for every association, the portal definition
is produced, and a use case with no matching association yields an empty
collected actor list (so empty diagrams and unassociated use cases are
fine). In this pure model the sink write always succeeds, so no other
failure remains. -/
theorem generator_totality (d : UseCaseDiagram) (name : String)
    (h : d.invariants_hold = true) :
    (∃ out, generate_portal_definition d name = some out) ∧
    (∀ p ∈ d.associations, (d.actor p.1).isSome) ∧
    ∀ u, (d.associations.filter fun p => decide (p.2 = u)) = [] →
      button_actor_names d u = some [] := by
  refine ⟨⟨_, generate_eq_render d name h⟩, ?_, ?_⟩
  · intro p hp
    exact actor_lookup_isSome_of_invariants d h hp
  · intro u hu
    unfold button_actor_names button_actors
    rw [hu]
    rfl

theorem generator_totality_witness :
    (∃ out, generate_portal_definition example_diagram "portal" = some out) ∧
    (∀ p ∈ example_diagram.associations,
      (example_diagram.actor p.1).isSome) ∧
    ∀ u, (example_diagram.associations.filter
        fun p => decide (p.2 = u)) = [] →
      button_actor_names example_diagram u = some [] :=
  generator_totality example_diagram "portal" (by decide)

/-- C8: the generator is deterministic: its output is a function of the
diagram's query results (actor mapping, use-case sequence, association
sequence — the fixed iteration order) and the names alone, so two runs of
the header, imports and portal definition over the same unmodified diagram
write byte-identical text. -/
theorem generator_deterministic (d1 d2 : UseCaseDiagram)
    (module_name name : String) (ha : d1.actors = d2.actors)
    (hu : d1.use_cases = d2.use_cases)
    (hs : d1.associations = d2.associations) :
    generate_all d1 module_name name = generate_all d2 module_name name := by
  obtain ⟨n1, m1, A1, U1, S1⟩ := d1
  obtain ⟨n2, m2, A2, U2, S2⟩ := d2
  simp only [UseCaseDiagram.mk.injEq] at ha hu hs ⊢
  subst ha hu hs
  rfl

theorem generator_deterministic_witness :
    generate_all example_diagram "ExamplePortal" "portal"
      = generate_all example_diagram "ExamplePortal" "portal" :=
  generator_deterministic example_diagram example_diagram "ExamplePortal"
    "portal" (by decide) (by decide) (by decide)

/-- C9: after any mutation sequence from `new`, `actors()` yields as many
entries as there were `insert_actor` calls, `use_cases()` as many as there
were `insert_use_case` calls, and `associations()` as many as there were
successful, non-duplicate `insert_association` calls. -/
theorem entry_counts (ms : List Mutation) :
    (runMutations UseCaseDiagram.new ms).actors.length = count_add_actor ms ∧
    (runMutations UseCaseDiagram.new ms).use_cases.length
      = count_add_use_case ms ∧
    (runMutations UseCaseDiagram.new ms).associations.length
      = successful_new_assoc_count UseCaseDiagram.new ms := by
  obtain ⟨l1, l2, l3⟩ := run_lengths UseCaseDiagram.new ms keys_bounded_new
  refine ⟨?_, ?_, ?_⟩ <;> simp_all [UseCaseDiagram.new]

/-- C10: each mutation only touches its own part of the state:
`insert_actor` leaves the use-case mapping and the association set
unchanged, `insert_use_case` leaves the actor mapping and the association
set unchanged, and `insert_association` — succeeding or failing — leaves
the actor mapping, the use-case mapping and both identifier counters
unchanged. -/
theorem mutation_frame (d : UseCaseDiagram) (actor : Actor)
    (use_case : UseCase) (a : ActorId) (u : UseCaseId) :
    (d.insert_actor actor).2.use_cases = d.use_cases ∧
    (d.insert_actor actor).2.associations = d.associations ∧
    (d.insert_use_case use_case).2.actors = d.actors ∧
    (d.insert_use_case use_case).2.associations = d.associations ∧
    (d.insert_association a u).2.actors = d.actors ∧
    (d.insert_association a u).2.use_cases = d.use_cases ∧
    (d.insert_association a u).2.next_actor_id = d.next_actor_id ∧
    (d.insert_association a u).2.next_use_case_id = d.next_use_case_id := by
  obtain ⟨f1, f2, f3, f4⟩ := insert_association_frame d a u
  exact ⟨rfl, rfl, rfl, rfl, f1, f2, f3, f4⟩

end Butterfly
